import Mathlib

/-
Formal model of the change-detection core of the ccmha-schedule-monitor
repository (src/ccmha_change_detector.py).  The Python functions
filter_next_n_days, create_schedule_key, create_schedule_hash and
detect_changes are embedded shallowly as Lean functions over an explicit
record type for schedule entries; Python dictionaries that may lack keys
are modelled with Option-valued fields, and Python exceptions (KeyError /
ValueError escaping a function) are modelled by Option-returning
functions.  Wall-clock state (datetime.now()) is passed explicitly.
-/

/-- Schedule entry as handled by the detector: a record loaded from a CSV
row.  Each field is optional because the Python code manipulates plain
dictionaries and distinguishes a present value from an absent key
(item.get vs item[...]). -/
structure ScheduleEntry where
  date : Option String
  start_time : Option String
  end_time : Option String
  type : Option String
  league : Option String
  team : Option String
  venue : Option String
  deriving DecidableEq, Repr

/-- Embedding of create_schedule_key (ccmha_change_detector.py:77-79).
The Python body is the f-string
  item['date'] + "_" + item['start_time'] + "_" + item['type'] + "_" + item['league']
and direct subscripting raises KeyError when a field is absent, so the
model returns none exactly when one of the four identity fields is
missing. -/
def create_schedule_key (item : ScheduleEntry) : Option String :=
  match item.date, item.start_time, item.type, item.league with
  | some d, some s, some t, some l => some (d ++ "_" ++ s ++ "_" ++ t ++ "_" ++ l)
  | _, _, _, _ => none

-- ---------------------------------------------------------------------
-- Calendar model for filter_next_n_days
-- ---------------------------------------------------------------------

/-- Splits a character list on a separator, the way str.split does:
splitting the empty string yields one empty group. -/
def splitOnChar (sep : Char) : List Char → List (List Char)
  | [] => [[]]
  | c :: rest =>
    let r := splitOnChar sep rest
    if c = sep then [] :: r
    else match r with
      | [] => [[c]]
      | g :: gs => (c :: g) :: gs

/-- Value of a decimal digit character, none for non-digits. -/
def digitVal (c : Char) : Option Nat :=
  if 48 ≤ c.toNat ∧ c.toNat ≤ 57 then some (c.toNat - 48) else none

/-- Decimal number denoted by a non-empty list of digit characters. -/
def natOfDigits : List Char → Option Nat
  | [] => none
  | cs => cs.foldlM (fun acc c => (digitVal c).map (fun d => acc * 10 + d)) 0

/-- Proleptic Gregorian calendar date, mirroring datetime.date. -/
structure Date where
  y : Nat
  m : Nat
  d : Nat
  deriving DecidableEq, Repr

/-- Gregorian leap-year rule, as implemented by the datetime library. -/
def isLeapYear (y : Nat) : Bool :=
  (y % 4 == 0 && y % 100 != 0) || y % 400 == 0

/-- Number of days in a month of a given year. -/
def daysInMonth (y m : Nat) : Nat :=
  if m = 2 then (if isLeapYear y then 29 else 28)
  else if m = 4 ∨ m = 6 ∨ m = 9 ∨ m = 11 then 30
  else 31

/-- Python compares datetime.date values by the (year, month, day) triple;
this is the strict comparison as a Bool, used inside the filter. -/
def dateLtB (a b : Date) : Bool :=
  a.y < b.y || (a.y == b.y && (a.m < b.m || (a.m == b.m && a.d < b.d)))

/-- Non-strict (year, month, day) comparison as a Bool. -/
def dateLeB (a b : Date) : Bool :=
  a.y < b.y || (a.y == b.y && (a.m < b.m || (a.m == b.m && a.d ≤ b.d)))

/-- Strict date order as a proposition. -/
def DateLt (a b : Date) : Prop :=
  a.y < b.y ∨ (a.y = b.y ∧ (a.m < b.m ∨ (a.m = b.m ∧ a.d < b.d)))

instance : DecidableRel DateLt := by
  intro a b
  unfold DateLt
  infer_instance

/-- Successor day in the Gregorian calendar (roll day, then month, then
year).  datetime.date.__add__ with timedelta(days=n) agrees with n
iterations of this map on every valid date. -/
def nextDay (x : Date) : Date :=
  if x.d < daysInMonth x.y x.m then ⟨x.y, x.m, x.d + 1⟩
  else if x.m < 12 then ⟨x.y, x.m + 1, 1⟩
  else ⟨x.y + 1, 1, 1⟩

/-- Model of date + timedelta(days = n): n iterations of nextDay. -/
def addDays (x : Date) : Nat → Date
  | 0 => x
  | n + 1 => nextDay (addDays x n)

/-- Day field of strptime: the _strptime regex for the d directive,
one or two digits or a space followed by a single non-zero digit (the
space-padded day form); the numeric range check happens later against
the month. -/
def parseDayField (ds : List Char) : Option Nat :=
  match ds with
  | [' ', c] =>
    if 49 ≤ c.toNat ∧ c.toNat ≤ 57 then some (c.toNat - 48) else none
  | _ => if ds.length ≤ 2 then natOfDigits ds else none

/-- Embedding of datetime.strptime(s, yyyy-mm-dd format)
(ccmha_change_detector.py:47), following the _strptime field regexes:
the year is exactly four digits, the month one or two digits in 1..12,
the day one or two digits or a space-padded single digit, the dashes
literal, the whole string consumed, and the resulting date valid (year
at least 1, day within the month), else ValueError (modelled none).
Digits are modelled as ASCII 0-9; the regexes would also admit other
Unicode decimal digits, which this pipeline's CSV data never carries. -/
def parseDate (s : String) : Option Date :=
  match splitOnChar '-' s.data with
  | [ys, ms, ds] =>
    match natOfDigits ys, natOfDigits ms, parseDayField ds with
    | some yv, some mv, some dv =>
      if ys.length = 4 ∧ ms.length ≤ 2 ∧
         1 ≤ yv ∧ 1 ≤ mv ∧ mv ≤ 12 ∧ 1 ≤ dv ∧ dv ≤ daysInMonth yv mv
      then some ⟨yv, mv, dv⟩ else none
    | _, _, _ => none
  | _ => none

/-- Characters a Python regex backslash-s matches on str patterns: the
set strptime lets the format's literal space absorb one or more of. -/
def isPySpace (c : Char) : Bool :=
  (9 ≤ c.toNat ∧ c.toNat ≤ 13) ∨ (28 ≤ c.toNat ∧ c.toNat ≤ 32) ∨
    c.toNat = 133 ∨ c.toNat = 160 ∨ c.toNat = 5760 ∨
    (8192 ≤ c.toNat ∧ c.toNat ≤ 8202) ∨ c.toNat = 8232 ∨
    c.toNat = 8233 ∨ c.toNat = 8239 ∨ c.toNat = 8287 ∨ c.toNat = 12288

/-- Embedding of the start-time parse at ccmha_change_detector.py:59.
The code builds the string "date start_time" and picks format
H:M:S when start_time contains exactly two colons, H:M otherwise.
strptime compiles the format's literal space to one-or-more whitespace,
so the guaranteed separator space also absorbs any leading whitespace
run of start_time; after it the field regexes accept one or two digits
with hours up to 23 and minutes and seconds up to 59, colons literal,
the string consumed exactly.  (The seconds regex also matches 60 and
61, but the datetime constructor then raises ValueError, the same
except branch as a failed parse; none covers both.)  The result is the
number of seconds elapsed since midnight. -/
def parseTimeSeconds (s : String) : Option Nat :=
  let core := s.data.dropWhile (fun c => isPySpace c)
  if (s.data.filter (fun c => c = ':')).length = 2 then
    match splitOnChar ':' core with
    | [hs, ms, ss] =>
      match natOfDigits hs, natOfDigits ms, natOfDigits ss with
      | some hv, some mv, some sv =>
        if hs.length ≤ 2 ∧ ms.length ≤ 2 ∧ ss.length ≤ 2 ∧
           hv ≤ 23 ∧ mv ≤ 59 ∧ sv ≤ 59
        then some (hv * 3600 + mv * 60 + sv) else none
      | _, _, _ => none
    | _ => none
  else
    match splitOnChar ':' core with
    | [hs, ms] =>
      match natOfDigits hs, natOfDigits ms with
      | some hv, some mv =>
        if hs.length ≤ 2 ∧ ms.length ≤ 2 ∧ hv ≤ 23 ∧ mv ≤ 59
        then some (hv * 3600 + mv * 60) else none
      | _, _ => none
    | _ => none

/-- Reference instant: the value of datetime.now() at the start of
filter_next_n_days, split into its date (today) and the number of
seconds elapsed since that date's midnight. -/
structure RefInstant where
  today : Date
  secOfDay : Nat
  deriving DecidableEq, Repr

/-- Decision taken by the loop body of filter_next_n_days
(ccmha_change_detector.py:45-72) for one item: true when the item is
appended to the output.  A missing or unparseable date is dropped (the
outer except continues), a future date within the window is kept, and a
today-dated item is kept unless its start time parses and lies 1 hour or
more before the reference instant.  The comparison
game_datetime > now - timedelta(hours=1), where game_datetime sits on
today, amounts to secondsOfDay(game) + 3600 > secondsOfDay(now). -/
def keepItem (now : RefInstant) (days : Nat) (item : ScheduleEntry) : Bool :=
  match item.date with
  | none => false
  | some ds =>
    match parseDate ds with
    | none => false
    | some d =>
      if dateLtB now.today d && dateLeB d (addDays now.today days) then true
      else if d = now.today then
        match item.start_time with
        | none => true
        | some ts =>
          if ts = "" then true
          else match parseTimeSeconds ts with
            | none => true
            | some t => decide (now.secOfDay < t + 3600)
      else false

/-- Embedding of filter_next_n_days (ccmha_change_detector.py:38-74):
the input list filtered by keepItem, preserving input order. -/
def filter_next_n_days (now : RefInstant) (days : Nat)
    (items : List ScheduleEntry) : List ScheduleEntry :=
  items.filter (keepItem now days)

-- ---------------------------------------------------------------------
-- Order lemmas for the calendar model
-- ---------------------------------------------------------------------

/-- Non-strict date order as a proposition. -/
def DateLe (a b : Date) : Prop := DateLt a b ∨ a = b

lemma dateLtB_iff (a b : Date) : dateLtB a b = true ↔ DateLt a b := by
  cases a; cases b
  simp [dateLtB, DateLt]

lemma dateLeB_iff (a b : Date) : dateLeB a b = true ↔ DateLe a b := by
  cases a; cases b
  simp [dateLeB, DateLe, DateLt, Date.mk.injEq]
  omega

lemma dateLt_irrefl (a : Date) : ¬ DateLt a a := by
  cases a; simp [DateLt]

lemma dateLt_trans {a b c : Date} (h1 : DateLt a b) (h2 : DateLt b c) :
    DateLt a c := by
  cases a; cases b; cases c
  simp [DateLt] at h1 h2 ⊢
  omega

lemma dateLt_asymm {a b : Date} (h : DateLt a b) : ¬ DateLt b a := by
  intro h2
  exact dateLt_irrefl a (dateLt_trans h h2)

lemma dateLt_nextDay (x : Date) : DateLt x (nextDay x) := by
  obtain ⟨yy, mm, dd⟩ := x
  unfold nextDay
  split_ifs <;> simp_all [DateLt]

lemma dateLt_addDays (x : Date) {n : Nat} (hn : 1 ≤ n) :
    DateLt x (addDays x n) := by
  induction n with
  | zero => omega
  | succ k ih =>
    cases Nat.eq_or_lt_of_le hn with
    | inl h =>
      have hk : k = 0 := by omega
      subst hk
      exact dateLt_nextDay x
    | inr h =>
      have hk : 1 ≤ k := by omega
      exact dateLt_trans (ih hk) (dateLt_nextDay (addDays x k))

lemma dateLt_addDays_succ (x : Date) (n : Nat) :
    DateLt (addDays x n) (addDays x (n + 1)) :=
  dateLt_nextDay (addDays x n)

lemma dateLtB_self (a : Date) : dateLtB a a = false := by
  rw [← Bool.not_eq_true, dateLtB_iff]
  exact dateLt_irrefl a

-- ---------------------------------------------------------------------
-- C5: identity-key derivation on entries with missing fields
-- ---------------------------------------------------------------------

/-- Counterexample to claim C5 as stated: an entry lacking the identity
field date does not get an empty-string key component; create_schedule_key
hits a missing-key fault (modelled as none) instead. -/
theorem c5_counterexample :
    create_schedule_key
      ⟨none, some "18:00", some "19:00", some "Game", some "LeagueA",
        some "TeamX", some "Amherst Stadium"⟩ = none := by
  rfl

/-- Claim C5 (amended): create_schedule_key faults (returns none) exactly
when at least one of the identity fields date, start_time, type, league
is absent, and otherwise succeeds; no empty-string substitution is
performed for missing fields. -/
theorem c5_missing_identity_field_faults (item : ScheduleEntry) :
    create_schedule_key item = none ↔
      (item.date = none ∨ item.start_time = none ∨
        item.type = none ∨ item.league = none) := by
  obtain ⟨d, s, et, t, l, tm, v⟩ := item
  cases d <;> cases s <;> cases t <;> cases l <;>
    simp [create_schedule_key]

-- ---------------------------------------------------------------------
-- C6: window boundary behaviour of filter_next_n_days
-- ---------------------------------------------------------------------

/-- Claim C6: for an entry with a parseable date d, the window filter
retains it whenever today < d ≤ today + horizon; in particular an entry
dated exactly today + horizon (horizon ≥ 1) is retained, one dated
today + horizon + 1 is dropped, and one dated strictly before today is
dropped. -/
theorem c6_window_boundary (now : RefInstant) (days : Nat)
    (e : ScheduleEntry) (ds : String) (d : Date)
    (hd : e.date = some ds) (hp : parseDate ds = some d) :
    (∀ items, e ∈ items → DateLt now.today d →
        DateLe d (addDays now.today days) →
        e ∈ filter_next_n_days now days items) ∧
    (∀ items, e ∈ items → 1 ≤ days → d = addDays now.today days →
        e ∈ filter_next_n_days now days items) ∧
    (∀ items, d = addDays now.today (days + 1) →
        e ∉ filter_next_n_days now days items) ∧
    (∀ items, DateLt d now.today →
        e ∉ filter_next_n_days now days items) := by
  refine ⟨?_, ?_, ?_, ?_⟩
  · intro items hmem hlt hle
    refine List.mem_filter.mpr ⟨hmem, ?_⟩
    have h1 : dateLtB now.today d = true := (dateLtB_iff _ _).mpr hlt
    have h2 : dateLeB d (addDays now.today days) = true :=
      (dateLeB_iff _ _).mpr hle
    simp [keepItem, hd, hp, h1, h2]
  · intro items hmem hdays hde
    refine List.mem_filter.mpr ⟨hmem, ?_⟩
    have h1 : dateLtB now.today d = true :=
      (dateLtB_iff _ _).mpr (hde ▸ dateLt_addDays now.today hdays)
    have h2 : dateLeB d (addDays now.today days) = true :=
      (dateLeB_iff _ _).mpr (Or.inr hde)
    simp [keepItem, hd, hp, h1, h2]
  · intro items hde hmem
    have hkeep : keepItem now days e = true := (List.mem_filter.mp hmem).2
    have hgt : DateLt (addDays now.today days) d :=
      hde ▸ dateLt_addDays_succ now.today days
    have h2 : dateLeB d (addDays now.today days) = false := by
      rw [← Bool.not_eq_true, dateLeB_iff]
      intro hle
      cases hle with
      | inl h => exact dateLt_asymm hgt h
      | inr h => exact dateLt_irrefl _ (h ▸ hgt)
    have h3 : d ≠ now.today := by
      intro h
      have : DateLt now.today d :=
        hde ▸ dateLt_addDays now.today (by omega)
      exact dateLt_irrefl _ (h ▸ this)
    simp [keepItem, hd, hp, h2, h3] at hkeep
  · intro items hlt hmem
    have hkeep : keepItem now days e = true := (List.mem_filter.mp hmem).2
    have h1 : dateLtB now.today d = false := by
      rw [← Bool.not_eq_true, dateLtB_iff]
      exact dateLt_asymm hlt
    have h3 : d ≠ now.today := by
      intro h
      exact dateLt_irrefl _ (h ▸ hlt)
    simp [keepItem, hd, hp, h1, h3] at hkeep

/-- Witness for c6_window_boundary: with reference date 2024-06-10 and a
7-day horizon, an entry dated 2024-06-17 (exactly today + 7) is
retained. -/
theorem c6_window_boundary_witness :
    (⟨some "2024-06-17", some "18:00", some "19:00", some "Game",
        some "LeagueA", some "TeamX", some "Amherst Stadium"⟩ : ScheduleEntry) ∈
      filter_next_n_days ⟨⟨2024, 6, 10⟩, 43200⟩ 7
        [⟨some "2024-06-17", some "18:00", some "19:00", some "Game",
            some "LeagueA", some "TeamX", some "Amherst Stadium"⟩] :=
  (c6_window_boundary ⟨⟨2024, 6, 10⟩, 43200⟩ 7
      ⟨some "2024-06-17", some "18:00", some "19:00", some "Game",
        some "LeagueA", some "TeamX", some "Amherst Stadium"⟩
      "2024-06-17" ⟨2024, 6, 17⟩ rfl (by decide)).2.1
    _ (by decide) (by decide) (by decide)

-- ---------------------------------------------------------------------
-- C7: same-day grace behaviour of filter_next_n_days
-- ---------------------------------------------------------------------

/-- Claim C7: for an entry dated today, if its start time parses then the
entry is retained iff start + 1 hour lies strictly after the reference
instant (game_datetime > now - 1 hour); if start_time is absent or
unparseable the entry is retained unconditionally. -/
theorem c7_same_day_grace (now : RefInstant) (days : Nat)
    (e : ScheduleEntry) (ds : String)
    (hd : e.date = some ds) (hp : parseDate ds = some now.today) :
    (∀ ts t items, e ∈ items → e.start_time = some ts →
        parseTimeSeconds ts = some t →
        (e ∈ filter_next_n_days now days items ↔
          now.secOfDay < t + 3600)) ∧
    (∀ items, e ∈ items → e.start_time = none →
        e ∈ filter_next_n_days now days items) ∧
    (∀ ts items, e ∈ items → e.start_time = some ts →
        parseTimeSeconds ts = none →
        e ∈ filter_next_n_days now days items) := by
  have hself : dateLtB now.today now.today = false := dateLtB_self now.today
  refine ⟨?_, ?_, ?_⟩
  · intro ts t items hmem hs hparse
    have hne : ts ≠ "" := by
      intro h
      rw [h] at hparse
      have : parseTimeSeconds "" = none := by decide
      rw [this] at hparse
      exact Option.noConfusion hparse
    constructor
    · intro hin
      have hkeep : keepItem now days e = true := (List.mem_filter.mp hin).2
      simpa [keepItem, hd, hp, hs, hself, hne, hparse] using hkeep
    · intro hlt
      refine List.mem_filter.mpr ⟨hmem, ?_⟩
      simp [keepItem, hd, hp, hs, hself, hne, hparse, hlt]
  · intro items hmem hs
    refine List.mem_filter.mpr ⟨hmem, ?_⟩
    simp [keepItem, hd, hp, hs, hself]
  · intro ts items hmem hs hparse
    refine List.mem_filter.mpr ⟨hmem, ?_⟩
    by_cases hne : ts = ""
    · simp [keepItem, hd, hp, hs, hself, hne]
    · simp [keepItem, hd, hp, hs, hself, hne, hparse]

/-- Witness for c7_same_day_grace: at reference instant 2024-06-10 12:00:00,
a game dated today starting 11:30 (30 minutes ago) is retained. -/
theorem c7_same_day_grace_witness :
    (⟨some "2024-06-10", some "11:30", some "12:30", some "Game",
        some "LeagueA", some "TeamX", some "Amherst Stadium"⟩ : ScheduleEntry) ∈
      filter_next_n_days ⟨⟨2024, 6, 10⟩, 43200⟩ 7
        [⟨some "2024-06-10", some "11:30", some "12:30", some "Game",
            some "LeagueA", some "TeamX", some "Amherst Stadium"⟩] :=
  ((c7_same_day_grace ⟨⟨2024, 6, 10⟩, 43200⟩ 7
      ⟨some "2024-06-10", some "11:30", some "12:30", some "Game",
        some "LeagueA", some "TeamX", some "Amherst Stadium"⟩
      "2024-06-10" rfl (by decide)).1 "11:30" 41400 _ (by decide) rfl
      (by decide)).mpr (by decide)

-- ---------------------------------------------------------------------
-- C10: filtering returns a subsequence of the input
-- ---------------------------------------------------------------------

/-- Claim C10: the output of filter_next_n_days is a subsequence of its
input: every retained entry is an unmodified input entry, relative input
order is preserved, and no entry occurs more often than in the input. -/
theorem c10_filter_subsequence (now : RefInstant) (days : Nat)
    (items : List ScheduleEntry) :
    (filter_next_n_days now days items).Sublist items ∧
    (∀ e, e ∈ filter_next_n_days now days items → e ∈ items) ∧
    (∀ e, (filter_next_n_days now days items).count e ≤ items.count e) := by
  refine ⟨List.filter_sublist items, ?_, ?_⟩
  · intro e he
    exact (List.filter_sublist items).subset he
  · intro e
    exact (List.filter_sublist items).count_le e

-- ---------------------------------------------------------------------
-- Computable string order (Python compares strings by code point)
-- ---------------------------------------------------------------------

/-- Strict lexicographic comparison of character lists by code point,
matching Python string comparison. -/
def charListLtB : List Char → List Char → Bool
  | [], [] => false
  | [], _ :: _ => true
  | _ :: _, [] => false
  | a :: as, b :: bs =>
    if a.toNat < b.toNat then true
    else if b.toNat < a.toNat then false
    else charListLtB as bs

lemma char_eq_of_toNat_eq {a b : Char} (h : a.toNat = b.toNat) : a = b :=
  Char.eq_of_val_eq (UInt32.eq_of_val_eq (Fin.ext h))

lemma charListLtB_irrefl : ∀ l, charListLtB l l = false
  | [] => rfl
  | a :: as => by simp [charListLtB, charListLtB_irrefl as]

lemma charListLtB_conn :
    ∀ {l1 l2 : List Char}, charListLtB l1 l2 = false →
      charListLtB l2 l1 = false → l1 = l2
  | [], [], _, _ => rfl
  | [], _ :: _, h1, _ => by simp [charListLtB] at h1
  | _ :: _, [], _, h2 => by simp [charListLtB] at h2
  | a :: as, b :: bs, h1, h2 => by
    simp only [charListLtB] at h1 h2
    rcases Nat.lt_trichotomy a.toNat b.toNat with hc | hc | hc
    · rw [if_pos hc] at h1
      exact absurd h1 (by simp)
    · have hab : a = b := char_eq_of_toNat_eq hc
      rw [if_neg (by omega), if_neg (by omega)] at h1
      rw [if_neg (by omega), if_neg (by omega)] at h2
      rw [hab, charListLtB_conn h1 h2]
    · rw [if_pos hc] at h2
      exact absurd h2 (by simp)

lemma charListLtB_trans :
    ∀ {l1 l2 l3 : List Char}, charListLtB l1 l2 = true →
      charListLtB l2 l3 = true → charListLtB l1 l3 = true
  | [], _ :: _, [], _, h2 => by simp [charListLtB] at h2
  | [], _ :: _, _ :: _, _, _ => by simp [charListLtB]
  | _ :: _, [], _, h1, _ => by simp [charListLtB] at h1
  | _ :: _, _ :: _, [], _, h2 => by simp [charListLtB] at h2
  | a :: as, b :: bs, c :: cs, h1, h2 => by
    simp only [charListLtB] at h1 h2 ⊢
    rcases Nat.lt_trichotomy a.toNat b.toNat with hab | hab | hab
    · rcases Nat.lt_trichotomy b.toNat c.toNat with hbc | hbc | hbc
      · rw [if_pos (by omega : a.toNat < c.toNat)]
      · rw [if_pos (by omega : a.toNat < c.toNat)]
      · rw [if_neg (by omega), if_pos (by omega)] at h2
        exact absurd h2 (by simp)
    · rcases Nat.lt_trichotomy b.toNat c.toNat with hbc | hbc | hbc
      · rw [if_pos (by omega : a.toNat < c.toNat)]
      · rw [if_neg (by omega), if_neg (by omega)] at h1
        rw [if_neg (by omega), if_neg (by omega)] at h2
        rw [if_neg (by omega : ¬ a.toNat < c.toNat),
          if_neg (by omega : ¬ c.toNat < a.toNat)]
        exact charListLtB_trans h1 h2
      · rw [if_neg (by omega), if_pos (by omega)] at h2
        exact absurd h2 (by simp)
    · rw [if_neg (by omega), if_pos (by omega)] at h1
      exact absurd h1 (by simp)

lemma charListLtB_asymm {l1 l2 : List Char} (h : charListLtB l1 l2 = true) :
    charListLtB l2 l1 = false := by
  by_contra hc
  have h2 : charListLtB l2 l1 = true := by
    cases hval : charListLtB l2 l1
    · exact absurd hval hc
    · rfl
  have := charListLtB_trans h h2
  rw [charListLtB_irrefl] at this
  exact Bool.noConfusion this

/-- Python string strict comparison. -/
def strLtB (a b : String) : Bool := charListLtB a.data b.data

/-- Python string non-strict comparison. -/
def strLeB (a b : String) : Bool := strLtB a b || a == b

lemma string_eq_of_data_eq {a b : String} (h : a.data = b.data) : a = b := by
  cases a; cases b; exact congrArg String.mk h

lemma strLtB_irrefl (a : String) : strLtB a a = false :=
  charListLtB_irrefl a.data

lemma strLtB_trans {a b c : String} (h1 : strLtB a b = true)
    (h2 : strLtB b c = true) : strLtB a c = true :=
  charListLtB_trans h1 h2

lemma strLtB_conn {a b : String} (h1 : strLtB a b = false)
    (h2 : strLtB b a = false) : a = b :=
  string_eq_of_data_eq (charListLtB_conn h1 h2)

lemma strLtB_asymm {a b : String} (h : strLtB a b = true) :
    strLtB b a = false :=
  charListLtB_asymm h

lemma strLeB_total (a b : String) : strLeB a b = true ∨ strLeB b a = true := by
  cases hab : strLtB a b
  · cases hba : strLtB b a
    · left
      have : a = b := strLtB_conn hab hba
      simp [strLeB, this]
    · right
      simp [strLeB, hba]
  · left
    simp [strLeB, hab]

lemma strLeB_trans {a b c : String} (h1 : strLeB a b = true)
    (h2 : strLeB b c = true) : strLeB a c = true := by
  simp only [strLeB, Bool.or_eq_true, beq_iff_eq] at h1 h2 ⊢
  rcases h1 with h1 | h1
  · rcases h2 with h2 | h2
    · exact Or.inl (strLtB_trans h1 h2)
    · exact Or.inl (h2 ▸ h1)
  · rcases h2 with h2 | h2
    · exact Or.inl (h1 ▸ h2)
    · exact Or.inr (h1.trans h2)

lemma strLeB_antisymm {a b : String} (h1 : strLeB a b = true)
    (h2 : strLeB b a = true) : a = b := by
  simp only [strLeB, Bool.or_eq_true, beq_iff_eq] at h1 h2
  rcases h1 with h1 | h1
  · rcases h2 with h2 | h2
    · have := strLtB_asymm h1
      rw [h2] at this
      exact Bool.noConfusion this
    · exact h2.symm
  · exact h1

-- ---------------------------------------------------------------------
-- Lexicographic product order (Python tuple comparison)
-- ---------------------------------------------------------------------

/-- Python tuple comparison (s, x) ≤ (t, y): first components by string
order, ties broken by the second components. -/
def lexStrLeB {β : Type} (leB : β → β → Bool) (x y : String × β) : Bool :=
  strLtB x.1 y.1 || (x.1 == y.1 && leB x.2 y.2)

lemma lexStrLeB_total {β : Type} (leB : β → β → Bool)
    (htot : ∀ u v, leB u v = true ∨ leB v u = true) (x y : String × β) :
    lexStrLeB leB x y = true ∨ lexStrLeB leB y x = true := by
  cases hab : strLtB x.1 y.1
  · cases hba : strLtB y.1 x.1
    · have he : x.1 = y.1 := strLtB_conn hab hba
      rcases htot x.2 y.2 with h | h
      · left
        simp [lexStrLeB, he, h]
      · right
        simp [lexStrLeB, he.symm, h]
    · right
      simp [lexStrLeB, hba]
  · left
    simp [lexStrLeB, hab]

lemma lexStrLeB_trans {β : Type} (leB : β → β → Bool)
    (htr : ∀ u v w, leB u v = true → leB v w = true → leB u w = true)
    {x y z : String × β} (h1 : lexStrLeB leB x y = true)
    (h2 : lexStrLeB leB y z = true) : lexStrLeB leB x z = true := by
  simp only [lexStrLeB, Bool.or_eq_true, Bool.and_eq_true, beq_iff_eq] at h1 h2 ⊢
  rcases h1 with h1 | ⟨he1, hb1⟩
  · rcases h2 with h2 | ⟨he2, _⟩
    · exact Or.inl (strLtB_trans h1 h2)
    · exact Or.inl (he2 ▸ h1)
  · rcases h2 with h2 | ⟨he2, hb2⟩
    · exact Or.inl (he1 ▸ h2)
    · exact Or.inr ⟨he1.trans he2, htr _ _ _ hb1 hb2⟩

lemma lexStrLeB_antisymm {β : Type} (leB : β → β → Bool)
    (hanti : ∀ u v, leB u v = true → leB v u = true → u = v)
    {x y : String × β} (h1 : lexStrLeB leB x y = true)
    (h2 : lexStrLeB leB y x = true) : x = y := by
  simp only [lexStrLeB, Bool.or_eq_true, Bool.and_eq_true, beq_iff_eq] at h1 h2
  rcases h1 with h1 | ⟨he1, hb1⟩
  · rcases h2 with h2 | ⟨he2, _⟩
    · have := strLtB_asymm h1
      rw [h2] at this
      exact Bool.noConfusion this
    · exact absurd (he2 ▸ h1) (by simp [strLtB_irrefl])
  · rcases h2 with h2 | ⟨he2, hb2⟩
    · exact absurd (he1 ▸ h2) (by simp [strLtB_irrefl])
    · exact Prod.ext he1 (hanti _ _ hb1 hb2)

/-- Python comparison of (string, string) pairs. -/
def pairLeB (x y : String × String) : Bool := lexStrLeB strLeB x y

/-- Python comparison of (string, string, string) triples. -/
def tripleLeB (x y : String × String × String) : Bool := lexStrLeB pairLeB x y

lemma pairLeB_total (x y : String × String) :
    pairLeB x y = true ∨ pairLeB y x = true :=
  lexStrLeB_total strLeB strLeB_total x y

lemma pairLeB_trans {x y z : String × String} (h1 : pairLeB x y = true)
    (h2 : pairLeB y z = true) : pairLeB x z = true :=
  lexStrLeB_trans strLeB (fun _ _ _ h h' => strLeB_trans h h') h1 h2

lemma pairLeB_antisymm {x y : String × String} (h1 : pairLeB x y = true)
    (h2 : pairLeB y x = true) : x = y :=
  lexStrLeB_antisymm strLeB (fun _ _ h h' => strLeB_antisymm h h') h1 h2

lemma tripleLeB_total (x y : String × String × String) :
    tripleLeB x y = true ∨ tripleLeB y x = true :=
  lexStrLeB_total pairLeB pairLeB_total x y

lemma tripleLeB_trans {x y z : String × String × String}
    (h1 : tripleLeB x y = true) (h2 : tripleLeB y z = true) :
    tripleLeB x z = true :=
  lexStrLeB_trans pairLeB (fun _ _ _ h h' => pairLeB_trans h h') h1 h2

lemma tripleLeB_antisymm {x y : String × String × String}
    (h1 : tripleLeB x y = true) (h2 : tripleLeB y x = true) : x = y :=
  lexStrLeB_antisymm pairLeB (fun _ _ h h' => pairLeB_antisymm h h') h1 h2

-- ---------------------------------------------------------------------
-- Diff engine: key maps and detect_changes
-- ---------------------------------------------------------------------

/-- Python dict as an insertion-ordered association list with unique
keys.  Assigning to an existing key replaces the value in place (the key
keeps its original position), assigning a new key appends; this is the
last-write-wins behaviour of the dict comprehensions at
ccmha_change_detector.py:98-99. -/
def insertLWW (m : List (String × ScheduleEntry)) (k : String)
    (v : ScheduleEntry) : List (String × ScheduleEntry) :=
  if m.any (fun p => p.1 == k) then
    m.map (fun p => if p.1 == k then (k, v) else p)
  else m ++ [(k, v)]

/-- Dict subscript on the association list: value of the first (and, for
maps built by insertLWW, only) pair carrying the key. -/
def lookupIdx (m : List (String × ScheduleEntry)) (k : String) :
    Option ScheduleEntry :=
  (m.find? (fun p => p.1 == k)).map (fun p => p.2)

/-- Left fold of insertLWW over the item list, faulting (none) on the
first entry whose identity key cannot be derived. -/
def buildMapAux (acc : List (String × ScheduleEntry)) :
    List ScheduleEntry → Option (List (String × ScheduleEntry))
  | [] => some acc
  | e :: rest =>
    match create_schedule_key e with
    | none => none
    | some k => buildMapAux (insertLWW acc k e) rest

/-- Embedding of the dict comprehension
  old_keys = dict of create_schedule_key(item) to item
(ccmha_change_detector.py:98-99): items scanned left to right, later
duplicates overwriting earlier ones; none models the KeyError raised
when an entry lacks an identity field. -/
def buildKeyMap (items : List ScheduleEntry) :
    Option (List (String × ScheduleEntry)) :=
  buildMapAux [] items

/-- Output record of detect_changes (the changes dict built at
ccmha_change_detector.py:121-126). -/
structure ChangeReport where
  added : List ScheduleEntry
  removed : List ScheduleEntry
  modified : List (String × ScheduleEntry × ScheduleEntry)
  has_changes : Bool
  deriving DecidableEq, Repr

/-- Field comparison at ccmha_change_detector.py:116-118: team, venue and
end_time read with .get, so an absent field compares as None. -/
def modifiedFields (o n : ScheduleEntry) : Bool :=
  o.team != n.team || o.venue != n.venue || o.end_time != n.end_time

/-- Report computed from the two key maps (ccmha_change_detector.py:101-126).
Python iterates the sets added_keys, removed_keys and common_keys in an
unspecified hash order; the model fixes one concrete determinization,
key-insertion order, which the code does nothing to constrain further. -/
def mkReport (oldM newM : List (String × ScheduleEntry)) : ChangeReport :=
  let oldKs := oldM.map (fun p => p.1)
  let newKs := newM.map (fun p => p.1)
  let addedKeys := newKs.filter (fun k => !(oldKs.contains k))
  let removedKeys := oldKs.filter (fun k => !(newKs.contains k))
  let commonKeys := oldKs.filter (fun k => newKs.contains k)
  let modified := commonKeys.filterMap (fun k =>
    match lookupIdx oldM k, lookupIdx newM k with
    | some o, some n => if modifiedFields o n then some (k, o, n) else none
    | _, _ => none)
  ⟨addedKeys.filterMap (fun k => lookupIdx newM k),
    removedKeys.filterMap (fun k => lookupIdx oldM k),
    modified,
    decide (0 < addedKeys.length) || decide (0 < removedKeys.length) ||
      decide (0 < modified.length)⟩

/-- Embedding of detect_changes (ccmha_change_detector.py:94-128); none
models the KeyError raised while building either key map. -/
def detect_changes (old_items new_items : List ScheduleEntry) :
    Option ChangeReport :=
  match buildKeyMap old_items, buildKeyMap new_items with
  | some oldM, some newM => some (mkReport oldM newM)
  | _, _ => none

/-- Keys underlying the added entries of a report. -/
def addedKeySet (r : ChangeReport) : List String :=
  r.added.filterMap create_schedule_key

/-- Keys underlying the removed entries of a report. -/
def removedKeySet (r : ChangeReport) : List String :=
  r.removed.filterMap create_schedule_key

/-- Keys of the modification triples of a report. -/
def modifiedKeySet (r : ChangeReport) : List String :=
  r.modified.map (fun t => t.1)

/-- k is the identity key of some entry of the collection. -/
def isKeyOf (k : String) (items : List ScheduleEntry) : Prop :=
  ∃ e ∈ items, create_schedule_key e = some k

/-- Well-formedness of a key map: keys are unique and each stored pair
really carries the identity key of its entry. -/
def WFMap (m : List (String × ScheduleEntry)) : Prop :=
  (m.map (fun p => p.1)).Nodup ∧
    ∀ p ∈ m, create_schedule_key p.2 = some p.1

-- ---------------------------------------------------------------------
-- Key-map lemmas
-- ---------------------------------------------------------------------

lemma keys_insertLWW (m : List (String × ScheduleEntry)) (k : String)
    (v : ScheduleEntry) :
    (insertLWW m k v).map (fun p => p.1) =
      if m.any (fun p => p.1 == k) then m.map (fun p => p.1)
      else m.map (fun p => p.1) ++ [k] := by
  unfold insertLWW
  split
  · rw [List.map_map]
    refine List.map_congr_left ?_
    intro p hp
    by_cases hpk : p.1 = k
    · simp [Function.comp, hpk]
    · simp [Function.comp, hpk]
  · simp

lemma any_beq_iff_mem_keys (m : List (String × ScheduleEntry)) (k : String) :
    m.any (fun p => p.1 == k) = true ↔ k ∈ m.map (fun p => p.1) := by
  simp only [List.any_eq_true, List.mem_map, beq_iff_eq]

lemma mem_keys_insertLWW (m : List (String × ScheduleEntry))
    (k k' : String) (v : ScheduleEntry) :
    k' ∈ (insertLWW m k v).map (fun p => p.1) ↔
      k' ∈ m.map (fun p => p.1) ∨ k' = k := by
  rw [keys_insertLWW]
  split
  · rename_i h
    have hk : k ∈ m.map (fun p => p.1) := (any_beq_iff_mem_keys m k).mp h
    constructor
    · exact Or.inl
    · rintro (h' | rfl)
      · exact h'
      · exact hk
  · simp

lemma nodup_keys_insertLWW (m : List (String × ScheduleEntry))
    (k : String) (v : ScheduleEntry)
    (h : (m.map (fun p => p.1)).Nodup) :
    ((insertLWW m k v).map (fun p => p.1)).Nodup := by
  rw [keys_insertLWW]
  split
  · exact h
  · rename_i hany
    rw [List.nodup_append]
    refine ⟨h, List.nodup_singleton k, ?_⟩
    intro k' hk' hk1
    rw [List.mem_singleton] at hk1
    subst hk1
    exact hany ((any_beq_iff_mem_keys m k').mpr hk')

lemma wf_insertLWW {m : List (String × ScheduleEntry)} {k : String}
    {v : ScheduleEntry} (hwf : WFMap m)
    (hk : create_schedule_key v = some k) : WFMap (insertLWW m k v) := by
  refine ⟨nodup_keys_insertLWW m k v hwf.1, ?_⟩
  intro p hp
  unfold insertLWW at hp
  split at hp
  · rw [List.mem_map] at hp
    obtain ⟨q, hq, rfl⟩ := hp
    by_cases hqk : q.1 = k
    · simp only [hqk, beq_self_eq_true, if_pos]
      exact hk
    · simp only [beq_iff_eq, hqk, if_neg, not_false_iff]
      exact hwf.2 q hq
  · rw [List.mem_append, List.mem_singleton] at hp
    rcases hp with hp | rfl
    · exact hwf.2 p hp
    · exact hk

lemma lookupIdx_mem {m : List (String × ScheduleEntry)} {k : String}
    {e : ScheduleEntry} (h : lookupIdx m k = some e) : (k, e) ∈ m := by
  unfold lookupIdx at h
  cases hf : m.find? (fun p => p.1 == k) with
  | none => rw [hf] at h; exact Option.noConfusion h
  | some p =>
    rw [hf] at h
    have hp1 : p.1 = k := by
      have := List.find?_some hf
      simpa [beq_iff_eq] using this
    have hpe : p.2 = e := by simpa using h
    have hpm : p ∈ m := List.mem_of_find?_eq_some hf
    have : p = (k, e) := by
      cases p
      simp_all
    exact this ▸ hpm

lemma mem_keys_lookupIdx (m : List (String × ScheduleEntry)) (k : String) :
    k ∈ m.map (fun p => p.1) ↔ ∃ e, lookupIdx m k = some e := by
  constructor
  · intro h
    rw [List.mem_map] at h
    obtain ⟨p, hp, hk⟩ := h
    have : (m.find? (fun p => p.1 == k)).isSome = true :=
      List.find?_isSome.mpr ⟨p, hp, by simp [hk]⟩
    obtain ⟨q, hq⟩ := Option.isSome_iff_exists.mp this
    exact ⟨q.2, by simp [lookupIdx, hq]⟩
  · rintro ⟨e, he⟩
    exact List.mem_map.mpr ⟨(k, e), lookupIdx_mem he, rfl⟩

lemma buildMapAux_wf :
    ∀ {items : List ScheduleEntry}
      {acc m : List (String × ScheduleEntry)}, WFMap acc →
      buildMapAux acc items = some m → WFMap m
  | [], acc, m, hwf, h => by
    simp only [buildMapAux, Option.some.injEq] at h
    exact h ▸ hwf
  | e :: rest, acc, m, hwf, h => by
    simp only [buildMapAux] at h
    cases hk : create_schedule_key e with
    | none => rw [hk] at h; exact Option.noConfusion h
    | some k =>
      rw [hk] at h
      exact buildMapAux_wf (wf_insertLWW hwf hk) h

lemma buildMapAux_keys :
    ∀ {items : List ScheduleEntry}
      {acc m : List (String × ScheduleEntry)},
      buildMapAux acc items = some m → ∀ k,
      (k ∈ m.map (fun p => p.1) ↔
        k ∈ acc.map (fun p => p.1) ∨ isKeyOf k items)
  | [], acc, m, h, k => by
    simp only [buildMapAux, Option.some.injEq] at h
    subst h
    simp [isKeyOf]
  | e :: rest, acc, m, h, k => by
    simp only [buildMapAux] at h
    cases hk : create_schedule_key e with
    | none => rw [hk] at h; exact Option.noConfusion h
    | some ke =>
      rw [hk] at h
      have ih := buildMapAux_keys h k
      rw [ih, mem_keys_insertLWW]
      have hkey : isKeyOf k (e :: rest) ↔ (k = ke ∨ isKeyOf k rest) := by
        simp only [isKeyOf, List.mem_cons]
        constructor
        · rintro ⟨x, hx | hx, hxk⟩
          · subst hx
            rw [hk] at hxk
            exact Or.inl (Option.some.inj hxk).symm
          · exact Or.inr ⟨x, hx, hxk⟩
        · rintro (rfl | ⟨x, hx, hxk⟩)
          · exact ⟨e, Or.inl rfl, hk⟩
          · exact ⟨x, Or.inr hx, hxk⟩
      rw [hkey]
      tauto

lemma buildKeyMap_wf {items : List ScheduleEntry}
    {m : List (String × ScheduleEntry)}
    (h : buildKeyMap items = some m) : WFMap m :=
  buildMapAux_wf ⟨by simp, by simp⟩ h

lemma buildKeyMap_keys {items : List ScheduleEntry}
    {m : List (String × ScheduleEntry)}
    (h : buildKeyMap items = some m) (k : String) :
    k ∈ m.map (fun p => p.1) ↔ isKeyOf k items := by
  rw [buildMapAux_keys h k]
  simp

lemma length_filterMap_all_some {α β : Type} (f : α → Option β) :
    ∀ l : List α, (∀ x ∈ l, (f x).isSome = true) →
      (l.filterMap f).length = l.length
  | [], _ => rfl
  | a :: l, h => by
    obtain ⟨b, hb⟩ :=
      Option.isSome_iff_exists.mp (h a (List.mem_cons_self a l))
    rw [List.filterMap_cons, hb]
    simp only [List.length_cons]
    rw [length_filterMap_all_some f l
      (fun x hx => h x (List.mem_cons_of_mem a hx))]

-- ---------------------------------------------------------------------
-- Report characterization lemmas
-- ---------------------------------------------------------------------

lemma keys_of_filterMap_lookup {m : List (String × ScheduleEntry)}
    (hwf : WFMap m) (ks : List String) (k : String) :
    k ∈ (ks.filterMap (fun x => lookupIdx m x)).filterMap
        create_schedule_key ↔
      (k ∈ ks ∧ k ∈ m.map (fun p => p.1)) := by
  simp only [List.mem_filterMap]
  constructor
  · rintro ⟨e, ⟨k', hk', hl⟩, hkey⟩
    have hmem : (k', e) ∈ m := lookupIdx_mem hl
    have hk'e : create_schedule_key e = some k' := hwf.2 _ hmem
    have hkk : k' = k := by
      rw [hk'e] at hkey
      exact Option.some.inj hkey
    subst hkk
    exact ⟨hk', (mem_keys_lookupIdx m k').mpr ⟨e, hl⟩⟩
  · rintro ⟨hks, hkeys⟩
    obtain ⟨e, hl⟩ := (mem_keys_lookupIdx m k).mp hkeys
    exact ⟨e, ⟨k, hks, hl⟩, hwf.2 _ (lookupIdx_mem hl)⟩

lemma mem_addedKeySet_mkReport {oldM newM : List (String × ScheduleEntry)}
    (hwfN : WFMap newM) (k : String) :
    k ∈ addedKeySet (mkReport oldM newM) ↔
      (k ∈ newM.map (fun p => p.1) ∧ ¬ k ∈ oldM.map (fun p => p.1)) := by
  have h := keys_of_filterMap_lookup hwfN
    ((newM.map (fun p => p.1)).filter
      (fun x => !((oldM.map (fun p => p.1)).contains x))) k
  simp only [addedKeySet, mkReport] at h ⊢
  rw [h, List.mem_filter]
  simp
  tauto

lemma mem_removedKeySet_mkReport {oldM newM : List (String × ScheduleEntry)}
    (hwfO : WFMap oldM) (k : String) :
    k ∈ removedKeySet (mkReport oldM newM) ↔
      (k ∈ oldM.map (fun p => p.1) ∧ ¬ k ∈ newM.map (fun p => p.1)) := by
  have h := keys_of_filterMap_lookup hwfO
    ((oldM.map (fun p => p.1)).filter
      (fun x => !((newM.map (fun p => p.1)).contains x))) k
  simp only [removedKeySet, mkReport] at h ⊢
  rw [h, List.mem_filter]
  simp
  tauto

lemma mem_modified_mkReport {oldM newM : List (String × ScheduleEntry)}
    (k : String) (o n : ScheduleEntry) :
    (k, o, n) ∈ (mkReport oldM newM).modified ↔
      (lookupIdx oldM k = some o ∧ lookupIdx newM k = some n ∧
        modifiedFields o n = true) := by
  simp only [mkReport, List.mem_filterMap, List.mem_filter]
  constructor
  · rintro ⟨k', ⟨hk'o, hk'n⟩, hf⟩
    cases hlo : lookupIdx oldM k' with
    | none => rw [hlo] at hf; exact Option.noConfusion hf
    | some o' =>
      cases hln : lookupIdx newM k' with
      | none => rw [hlo, hln] at hf; exact Option.noConfusion hf
      | some n' =>
        rw [hlo, hln] at hf
        dsimp only at hf
        by_cases hmf : modifiedFields o' n' = true
        · rw [if_pos hmf] at hf
          rw [Option.some.injEq, Prod.mk.injEq, Prod.mk.injEq] at hf
          obtain ⟨rfl, rfl, rfl⟩ := hf
          exact ⟨hlo, hln, hmf⟩
        · rw [if_neg hmf] at hf
          exact Option.noConfusion hf
  · rintro ⟨hlo, hln, hmf⟩
    refine ⟨k, ⟨?_, ?_⟩, ?_⟩
    · exact (mem_keys_lookupIdx oldM k).mpr ⟨o, hlo⟩
    · have hkn : k ∈ newM.map (fun p => p.1) :=
        (mem_keys_lookupIdx newM k).mpr ⟨n, hln⟩
      simpa using hkn
    · rw [hlo, hln]
      simp [hmf]

lemma mem_modifiedKeySet_mkReport {oldM newM : List (String × ScheduleEntry)}
    (k : String) :
    k ∈ modifiedKeySet (mkReport oldM newM) ↔
      ∃ o n, lookupIdx oldM k = some o ∧ lookupIdx newM k = some n ∧
        modifiedFields o n = true := by
  simp only [modifiedKeySet, List.mem_map]
  constructor
  · rintro ⟨⟨k', o, n⟩, hmem, rfl⟩
    exact ⟨o, n, (mem_modified_mkReport k' o n).mp hmem⟩
  · rintro ⟨o, n, h1, h2, h3⟩
    exact ⟨(k, o, n), (mem_modified_mkReport k o n).mpr ⟨h1, h2, h3⟩, rfl⟩

lemma has_changes_mkReport {oldM newM : List (String × ScheduleEntry)} :
    (mkReport oldM newM).has_changes = true ↔
      ((mkReport oldM newM).added ≠ [] ∨ (mkReport oldM newM).removed ≠ [] ∨
        (mkReport oldM newM).modified ≠ []) := by
  have hlkN : ∀ k ∈ (newM.map (fun p => p.1)).filter
      (fun k => !((oldM.map (fun p => p.1)).contains k)),
      (lookupIdx newM k).isSome = true := by
    intro k hk
    obtain ⟨e, he⟩ :=
      (mem_keys_lookupIdx newM k).mp (List.mem_filter.mp hk).1
    simp [he]
  have hlkO : ∀ k ∈ (oldM.map (fun p => p.1)).filter
      (fun k => !((newM.map (fun p => p.1)).contains k)),
      (lookupIdx oldM k).isSome = true := by
    intro k hk
    obtain ⟨e, he⟩ :=
      (mem_keys_lookupIdx oldM k).mp (List.mem_filter.mp hk).1
    simp [he]
  have hA := length_filterMap_all_some (fun k => lookupIdx newM k) _ hlkN
  have hR := length_filterMap_all_some (fun k => lookupIdx oldM k) _ hlkO
  simp only [mkReport]
  rw [← hA, ← hR]
  simp only [Bool.or_eq_true, decide_eq_true_eq, List.length_pos]
  tauto

lemma detect_changes_some {old_items new_items : List ScheduleEntry}
    {r : ChangeReport}
    (h : detect_changes old_items new_items = some r) :
    ∃ oldM newM, buildKeyMap old_items = some oldM ∧
      buildKeyMap new_items = some newM ∧ r = mkReport oldM newM := by
  unfold detect_changes at h
  cases h1 : buildKeyMap old_items with
  | none => rw [h1] at h; exact Option.noConfusion h
  | some oldM =>
    cases h2 : buildKeyMap new_items with
    | none =>
      rw [h1, h2] at h
      exact Option.noConfusion h
    | some newM =>
      rw [h1, h2] at h
      dsimp only at h
      exact ⟨oldM, newM, rfl, rfl, (Option.some.inj h).symm⟩

-- ---------------------------------------------------------------------
-- Sample entries used by concrete witnesses
-- ---------------------------------------------------------------------

/-- Concrete game entry used by the spec scenarios. -/
def sampleGame : ScheduleEntry :=
  ⟨some "2024-06-01", some "18:00", some "19:00", some "Game",
    some "LeagueA", some "TeamX vs TeamY", some "Amherst Stadium"⟩

/-- The same booking with a different team assignment. -/
def sampleGameReassigned : ScheduleEntry :=
  ⟨some "2024-06-01", some "18:00", some "19:00", some "Game",
    some "LeagueA", some "TeamX vs TeamQ", some "Amherst Stadium"⟩

/-- A practice on the following day. -/
def samplePractice : ScheduleEntry :=
  ⟨some "2024-06-02", some "09:00", some "10:00", some "Practice",
    some "LeagueA", some "TeamZ", some "Amherst Stadium"⟩

-- ---------------------------------------------------------------------
-- C1: the report partitions the keys
-- ---------------------------------------------------------------------

lemma partition_cases {PA PR PM PO PN : Prop}
    (hA : PA ↔ (PN ∧ ¬ PO)) (hR : PR ↔ (PO ∧ ¬ PN))
    (hM : PM → (PO ∧ PN)) :
    (¬(PA ∧ PR)) ∧ (¬(PA ∧ PM)) ∧ (¬(PR ∧ PM)) ∧
    (PO ∨ PN →
      (PA ∧ ¬ PR ∧ ¬ PM ∧ ¬(PO ∧ PN ∧ ¬ PM)) ∨
      (¬ PA ∧ PR ∧ ¬ PM ∧ ¬(PO ∧ PN ∧ ¬ PM)) ∨
      (¬ PA ∧ ¬ PR ∧ PM ∧ ¬(PO ∧ PN ∧ ¬ PM)) ∨
      (¬ PA ∧ ¬ PR ∧ ¬ PM ∧ (PO ∧ PN ∧ ¬ PM))) := by
  tauto

/-- Claim C1: for every pair of inputs on which detect_changes returns a
report, the key sets of added, removed and modified are pairwise
disjoint, and every key of either input falls into exactly one of
added, removed, modified, or unchanged-common. -/
theorem c1_partition (old_items new_items : List ScheduleEntry)
    (r : ChangeReport) (k : String)
    (h : detect_changes old_items new_items = some r) :
    (¬(k ∈ addedKeySet r ∧ k ∈ removedKeySet r)) ∧
    (¬(k ∈ addedKeySet r ∧ k ∈ modifiedKeySet r)) ∧
    (¬(k ∈ removedKeySet r ∧ k ∈ modifiedKeySet r)) ∧
    (isKeyOf k old_items ∨ isKeyOf k new_items →
      (k ∈ addedKeySet r ∧ ¬ k ∈ removedKeySet r ∧
          ¬ k ∈ modifiedKeySet r ∧
          ¬(isKeyOf k old_items ∧ isKeyOf k new_items ∧
            ¬ k ∈ modifiedKeySet r)) ∨
      (¬ k ∈ addedKeySet r ∧ k ∈ removedKeySet r ∧
          ¬ k ∈ modifiedKeySet r ∧
          ¬(isKeyOf k old_items ∧ isKeyOf k new_items ∧
            ¬ k ∈ modifiedKeySet r)) ∨
      (¬ k ∈ addedKeySet r ∧ ¬ k ∈ removedKeySet r ∧
          k ∈ modifiedKeySet r ∧
          ¬(isKeyOf k old_items ∧ isKeyOf k new_items ∧
            ¬ k ∈ modifiedKeySet r)) ∨
      (¬ k ∈ addedKeySet r ∧ ¬ k ∈ removedKeySet r ∧
          ¬ k ∈ modifiedKeySet r ∧
          (isKeyOf k old_items ∧ isKeyOf k new_items ∧
            ¬ k ∈ modifiedKeySet r))) := by
  obtain ⟨oldM, newM, h1, h2, rfl⟩ := detect_changes_some h
  have hwfO := buildKeyMap_wf h1
  have hwfN := buildKeyMap_wf h2
  have hA : k ∈ addedKeySet (mkReport oldM newM) ↔
      (isKeyOf k new_items ∧ ¬ isKeyOf k old_items) := by
    rw [mem_addedKeySet_mkReport hwfN, buildKeyMap_keys h2 k,
      buildKeyMap_keys h1 k]
  have hR : k ∈ removedKeySet (mkReport oldM newM) ↔
      (isKeyOf k old_items ∧ ¬ isKeyOf k new_items) := by
    rw [mem_removedKeySet_mkReport hwfO, buildKeyMap_keys h1 k,
      buildKeyMap_keys h2 k]
  have hM : k ∈ modifiedKeySet (mkReport oldM newM) →
      (isKeyOf k old_items ∧ isKeyOf k new_items) := by
    rw [mem_modifiedKeySet_mkReport]
    rintro ⟨o, n, ho, hn, _⟩
    exact ⟨(buildKeyMap_keys h1 k).mp ((mem_keys_lookupIdx oldM k).mpr ⟨o, ho⟩),
      (buildKeyMap_keys h2 k).mp ((mem_keys_lookupIdx newM k).mpr ⟨n, hn⟩)⟩
  exact partition_cases hA hR hM

/-- Witness for c1_partition at a concrete pure-addition scenario. -/
theorem c1_partition_witness :
    ¬("2024-06-02_09:00_Practice_LeagueA" ∈
        addedKeySet ⟨[samplePractice], [], [], true⟩ ∧
      "2024-06-02_09:00_Practice_LeagueA" ∈
        removedKeySet ⟨[samplePractice], [], [], true⟩) :=
  (c1_partition [sampleGame] [sampleGame, samplePractice]
    ⟨[samplePractice], [], [], true⟩
    "2024-06-02_09:00_Practice_LeagueA" (by decide)).1

-- ---------------------------------------------------------------------
-- C2: modification condition on common keys
-- ---------------------------------------------------------------------

/-- Claim C2: for a key present in both inputs, with old entry o and new
entry n stored under it, a modification triple (k, o, n) is recorded if
and only if team, venue or end_time differ between o and n; the identity
fields date, start_time, type, league do not enter this comparison. -/
theorem c2_modified_iff_fields (old_items new_items : List ScheduleEntry)
    (oldM newM : List (String × ScheduleEntry)) (r : ChangeReport)
    (k : String) (o n : ScheduleEntry)
    (h1 : buildKeyMap old_items = some oldM)
    (h2 : buildKeyMap new_items = some newM)
    (h : detect_changes old_items new_items = some r)
    (ho : lookupIdx oldM k = some o)
    (hn : lookupIdx newM k = some n) :
    ((k, o, n) ∈ r.modified ↔
      (o.team ≠ n.team ∨ o.venue ≠ n.venue ∨ o.end_time ≠ n.end_time)) := by
  obtain ⟨oldM2, newM2, h1b, h2b, rfl⟩ := detect_changes_some h
  rw [h1] at h1b
  rw [h2] at h2b
  obtain rfl : oldM = oldM2 := Option.some.inj h1b
  obtain rfl : newM = newM2 := Option.some.inj h2b
  rw [mem_modified_mkReport k o n]
  simp [ho, hn, modifiedFields, bne_iff_ne]
  tauto

/-- Witness for c2_modified_iff_fields: changing only the team of the
sample game produces its modification triple. -/
theorem c2_modified_iff_fields_witness :
    ("2024-06-01_18:00_Game_LeagueA", sampleGame, sampleGameReassigned) ∈
      (ChangeReport.mk [] []
        [("2024-06-01_18:00_Game_LeagueA", sampleGame, sampleGameReassigned)]
        true).modified :=
  (c2_modified_iff_fields [sampleGame] [sampleGameReassigned]
    [("2024-06-01_18:00_Game_LeagueA", sampleGame)]
    [("2024-06-01_18:00_Game_LeagueA", sampleGameReassigned)]
    ⟨[], [],
      [("2024-06-01_18:00_Game_LeagueA", sampleGame, sampleGameReassigned)],
      true⟩
    "2024-06-01_18:00_Game_LeagueA" sampleGame sampleGameReassigned
    (by decide) (by decide) (by decide) (by decide) (by decide)).mpr
    (by decide)

-- ---------------------------------------------------------------------
-- C3: no-op idempotence and the has_changes flag
-- ---------------------------------------------------------------------

/-- Claim C3: whenever detect_changes returns a report for identical
inputs the report is empty with has_changes false, and in every report
detect_changes returns, has_changes is true iff one of added, removed,
modified is non-empty. -/
theorem c3_noop_and_flag :
    (∀ X r, detect_changes X X = some r →
      r.added = [] ∧ r.removed = [] ∧ r.modified = [] ∧
        r.has_changes = false) ∧
    (∀ old_items new_items r,
      detect_changes old_items new_items = some r →
      (r.has_changes = true ↔
        (r.added ≠ [] ∨ r.removed ≠ [] ∨ r.modified ≠ []))) := by
  constructor
  · intro X r h
    obtain ⟨m1, m2, h1, h2, rfl⟩ := detect_changes_some h
    obtain rfl : m1 = m2 := Option.some.inj (h1.symm.trans h2)
    have hadded : (mkReport m1 m1).added = [] := by
      rw [List.eq_nil_iff_forall_not_mem]
      intro e he
      simp only [mkReport, List.mem_filterMap, List.mem_filter] at he
      obtain ⟨k, ⟨hk1, hk2⟩, _⟩ := he
      simp [hk1] at hk2
    have hremoved : (mkReport m1 m1).removed = [] := by
      rw [List.eq_nil_iff_forall_not_mem]
      intro e he
      simp only [mkReport, List.mem_filterMap, List.mem_filter] at he
      obtain ⟨k, ⟨hk1, hk2⟩, _⟩ := he
      simp [hk1] at hk2
    have hmod : (mkReport m1 m1).modified = [] := by
      rw [List.eq_nil_iff_forall_not_mem]
      intro t ht
      obtain ⟨k, o, n⟩ := t
      rw [mem_modified_mkReport] at ht
      obtain ⟨ho, hn, hf⟩ := ht
      rw [ho] at hn
      obtain rfl : o = n := Option.some.inj hn
      simp [modifiedFields] at hf
    have hflag : (mkReport m1 m1).has_changes = false := by
      have hc := @has_changes_mkReport m1 m1
      rw [hadded, hremoved, hmod] at hc
      simp at hc
      exact hc
    exact ⟨hadded, hremoved, hmod, hflag⟩
  · intro old_items new_items r h
    obtain ⟨oldM, newM, h1, h2, rfl⟩ := detect_changes_some h
    exact @has_changes_mkReport oldM newM

/-- Witness for c3_noop_and_flag: diffing the one-game collection with
itself yields the empty report with has_changes false. -/
theorem c3_noop_and_flag_witness :
    (ChangeReport.mk [] [] [] false).added = [] ∧
    (ChangeReport.mk [] [] [] false).removed = [] ∧
    (ChangeReport.mk [] [] [] false).modified = [] ∧
    (ChangeReport.mk [] [] [] false).has_changes = false :=
  c3_noop_and_flag.1 [sampleGame] ⟨[], [], [], false⟩ (by decide)

-- ---------------------------------------------------------------------
-- C8: added/removed key-set symmetry
-- ---------------------------------------------------------------------

/-- Claim C8: the key set of diff(A, B).added equals the key set of
diff(B, A).removed whenever both runs return reports. -/
theorem c8_added_removed_symmetry (listA listB : List ScheduleEntry)
    (r1 r2 : ChangeReport) (k : String)
    (h1 : detect_changes listA listB = some r1)
    (h2 : detect_changes listB listA = some r2) :
    (k ∈ addedKeySet r1 ↔ k ∈ removedKeySet r2) := by
  obtain ⟨mA, mB, hA1, hB1, rfl⟩ := detect_changes_some h1
  obtain ⟨mB2, mA2, hB2, hA2, rfl⟩ := detect_changes_some h2
  obtain rfl : mA = mA2 := Option.some.inj (hA1.symm.trans hA2)
  obtain rfl : mB = mB2 := Option.some.inj (hB1.symm.trans hB2)
  rw [mem_addedKeySet_mkReport (buildKeyMap_wf hB1),
    mem_removedKeySet_mkReport (buildKeyMap_wf hB1)]

/-- Witness for c8_added_removed_symmetry: the game added in
diff([], [game]) is exactly the game removed in diff([game], []). -/
theorem c8_added_removed_symmetry_witness :
    "2024-06-01_18:00_Game_LeagueA" ∈
      removedKeySet ⟨[], [sampleGame], [], true⟩ :=
  (c8_added_removed_symmetry [] [sampleGame]
    ⟨[sampleGame], [], [], true⟩ ⟨[], [sampleGame], [], true⟩
    "2024-06-01_18:00_Game_LeagueA" (by decide) (by decide)).mp (by decide)

-- ---------------------------------------------------------------------
-- C4: ordering of added/removed
-- ---------------------------------------------------------------------

/-- Sort key used by format_changes_for_email
(ccmha_change_detector.py:157,176): the (date, start_time) pair. -/
def emailKeyPair (e : ScheduleEntry) : String × String :=
  (e.date.getD "", e.start_time.getD "")

/-- Python comparison of the (date, start_time) sort keys. -/
def emailLe (a b : ScheduleEntry) : Prop :=
  pairLeB (emailKeyPair a) (emailKeyPair b) = true

instance : DecidableRel emailLe := by
  intro a b
  unfold emailLe
  infer_instance

instance : IsTotal ScheduleEntry emailLe :=
  ⟨fun a b => pairLeB_total (emailKeyPair a) (emailKeyPair b)⟩

instance : IsTrans ScheduleEntry emailLe :=
  ⟨fun _ _ _ h1 h2 => pairLeB_trans h1 h2⟩

/-- Embedding of sorted(changes of added, key date and start_time) inside
format_changes_for_email (ccmha_change_detector.py:157).  Python sorted
is a stable sort, as is insertion sort. -/
def format_sorted_added (r : ChangeReport) : List ScheduleEntry :=
  List.insertionSort emailLe r.added

/-- Embedding of the identical sort of the removed entries at
ccmha_change_detector.py:176. -/
def format_sorted_removed (r : ChangeReport) : List ScheduleEntry :=
  List.insertionSort emailLe r.removed

/-- Adjacent-pairs check that a list is sorted by (date, start_time). -/
def isSortedByDateStartB : List ScheduleEntry → Bool
  | [] => true
  | [_] => true
  | a :: b :: rest =>
    pairLeB (emailKeyPair a) (emailKeyPair b) &&
      isSortedByDateStartB (b :: rest)

lemma isSortedByDateStartB_iff :
    ∀ l : List ScheduleEntry,
      isSortedByDateStartB l = true ↔ l.Sorted emailLe
  | [] => by simp [isSortedByDateStartB]
  | [a] => by simp [isSortedByDateStartB]
  | a :: b :: rest => by
    rw [isSortedByDateStartB, Bool.and_eq_true]
    constructor
    · intro h
      have hs := (isSortedByDateStartB_iff (b :: rest)).mp h.2
      rw [List.sorted_cons]
      refine ⟨?_, hs⟩
      intro x hx
      rcases List.mem_cons.mp hx with rfl | hx
      · exact h.1
      · have hb : emailLe b x := (List.sorted_cons.mp hs).1 x hx
        exact pairLeB_trans h.1 hb
    · intro h
      rw [List.sorted_cons] at h
      exact ⟨h.1 b (List.mem_cons_self b rest),
        (isSortedByDateStartB_iff (b :: rest)).mpr h.2⟩

/-- Counterexample to claim C4 as stated: on old = [] and
new = [practice on 2024-06-02, game on 2024-06-01] the added sequence of
the diff output is [practice, game], which is not sorted by
(date, start_time) — detect_changes contains no sort at all (the Python
set iteration it relies on is not even deterministic). -/
theorem c4_counterexample :
    (detect_changes [] [samplePractice, sampleGame]).map
      (fun r => isSortedByDateStartB r.added) = some false := by
  decide

/-- Claim C4 (amended): the (date, start_time) ascending ordering of the
added and removed sequences is established by the formatting layer
(format_changes_for_email sorts each of them before rendering), not by
the diff output itself: the formatting sort always yields a sorted
permutation of the report sequences. -/
theorem c4_formatting_sorts (r : ChangeReport) :
    (format_sorted_added r).Sorted emailLe ∧
    (format_sorted_added r).Perm r.added ∧
    (format_sorted_removed r).Sorted emailLe ∧
    (format_sorted_removed r).Perm r.removed :=
  ⟨List.sorted_insertionSort emailLe r.added,
    List.perm_insertionSort emailLe r.added,
    List.sorted_insertionSort emailLe r.removed,
    List.perm_insertionSort emailLe r.removed⟩

-- ---------------------------------------------------------------------
-- Canonical hash: json.dumps(sorted(...), sort_keys=True) + md5
-- ---------------------------------------------------------------------

/-- Lower-case hexadecimal digit. -/
def hexDigit (n : Nat) : Char :=
  if n < 10 then Char.ofNat (48 + n) else Char.ofNat (87 + n)

/-- Escape of one character inside a JSON string, as json.dumps performs
it with its default ensure_ascii: quote and backslash escaped, the five
short control escapes, and every other character outside 0x20-0x7e
rendered as backslash-u hex (with a surrogate pair above 0xFFFF). -/
def escapeChar (c : Char) : List Char :=
  if c = '"' then ['\\', '"']
  else if c = '\\' then ['\\', '\\']
  else if c.toNat = 8 then ['\\', 'b']
  else if c.toNat = 9 then ['\\', 't']
  else if c.toNat = 10 then ['\\', 'n']
  else if c.toNat = 12 then ['\\', 'f']
  else if c.toNat = 13 then ['\\', 'r']
  else if c.toNat < 32 ∨ 126 < c.toNat then
    if c.toNat < 65536 then
      ['\\', 'u', hexDigit (c.toNat / 4096 % 16), hexDigit (c.toNat / 256 % 16),
        hexDigit (c.toNat / 16 % 16), hexDigit (c.toNat % 16)]
    else
      let v := c.toNat - 65536
      let hi := 55296 + v / 1024
      let lo := 56320 + v % 1024
      ['\\', 'u', hexDigit (hi / 4096 % 16), hexDigit (hi / 256 % 16),
        hexDigit (hi / 16 % 16), hexDigit (hi % 16),
        '\\', 'u', hexDigit (lo / 4096 % 16), hexDigit (lo / 256 % 16),
        hexDigit (lo / 16 % 16), hexDigit (lo % 16)]
  else [c]

/-- JSON string literal for s, quotes included. -/
def jsonString (s : String) : String :=
  String.mk ('"' :: s.data.foldr (fun c acc => escapeChar c ++ acc) ['"'])

/-- Fields of an entry in the alphabetical key order used by
json.dumps(..., sort_keys=True). -/
def entryFields (e : ScheduleEntry) : List (String × Option String) :=
  [("date", e.date), ("end_time", e.end_time), ("league", e.league),
    ("start_time", e.start_time), ("team", e.team), ("type", e.type),
    ("venue", e.venue)]

/-- JSON object for one entry with sorted keys and the default
json.dumps separators; a field the dictionary lacks is simply absent. -/
def jsonEntry (e : ScheduleEntry) : String :=
  "\x7b" ++ String.intercalate ", "
    ((entryFields e).filterMap (fun p =>
      p.2.map (fun v => jsonString p.1 ++ ": " ++ jsonString v))) ++ "\x7d"

/-- JSON array of entries with the default separators: the
schedule_str of create_schedule_hash (ccmha_change_detector.py:88). -/
def jsonList (items : List ScheduleEntry) : String :=
  "[" ++ String.intercalate ", " (items.map jsonEntry) ++ "]"

/-- UTF-8 encoding of one character as byte values. -/
def utf8Char (c : Char) : List Nat :=
  let n := c.toNat
  if n < 128 then [n]
  else if n < 2048 then [192 + n / 64, 128 + n % 64]
  else if n < 65536 then [224 + n / 4096, 128 + n / 64 % 64, 128 + n % 64]
  else [240 + n / 262144, 128 + n / 4096 % 64, 128 + n / 64 % 64,
    128 + n % 64]

/-- String.encode of Python: UTF-8 bytes of the string. -/
def utf8Bytes (s : String) : List Nat :=
  s.data.foldr (fun c acc => utf8Char c ++ acc) []

-- MD5 (RFC 1321) over byte lists, all words as Nat reduced mod 2^32.

/-- Addition modulo 2^32. -/
def add32 (a b : Nat) : Nat := (a + b) % 4294967296

/-- Bitwise complement within 32 bits. -/
def not32 (a : Nat) : Nat := Nat.xor a 4294967295

/-- Left rotation of a 32-bit word. -/
def rotl32 (x n : Nat) : Nat :=
  Nat.lor ((x <<< n) % 4294967296) (x >>> (32 - n))

/-- Per-round additive constants of MD5 (floor(2^32 abs(sin(i+1)))). -/
def md5K : List Nat :=
  [0xd76aa478, 0xe8c7b756, 0x242070db, 0xc1bdceee,
   0xf57c0faf, 0x4787c62a, 0xa8304613, 0xfd469501,
   0x698098d8, 0x8b44f7af, 0xffff5bb1, 0x895cd7be,
   0x6b901122, 0xfd987193, 0xa679438e, 0x49b40821,
   0xf61e2562, 0xc040b340, 0x265e5a51, 0xe9b6c7aa,
   0xd62f105d, 0x02441453, 0xd8a1e681, 0xe7d3fbc8,
   0x21e1cde6, 0xc33707d6, 0xf4d50d87, 0x455a14ed,
   0xa9e3e905, 0xfcefa3f8, 0x676f02d9, 0x8d2a4c8a,
   0xfffa3942, 0x8771f681, 0x6d9d6122, 0xfde5380c,
   0xa4beea44, 0x4bdecfa9, 0xf6bb4b60, 0xbebfbc70,
   0x289b7ec6, 0xeaa127fa, 0xd4ef3085, 0x04881d05,
   0xd9d4d039, 0xe6db99e5, 0x1fa27cf8, 0xc4ac5665,
   0xf4292244, 0x432aff97, 0xab9423a7, 0xfc93a039,
   0x655b59c3, 0x8f0ccc92, 0xffeff47d, 0x85845dd1,
   0x6fa87e4f, 0xfe2ce6e0, 0xa3014314, 0x4e0811a1,
   0xf7537e82, 0xbd3af235, 0x2ad7d2bb, 0xeb86d391]

/-- Per-round left-rotation amounts of MD5. -/
def md5S : List Nat :=
  [7, 12, 17, 22, 7, 12, 17, 22, 7, 12, 17, 22, 7, 12, 17, 22,
   5, 9, 14, 20, 5, 9, 14, 20, 5, 9, 14, 20, 5, 9, 14, 20,
   4, 11, 16, 23, 4, 11, 16, 23, 4, 11, 16, 23, 4, 11, 16, 23,
   6, 10, 15, 21, 6, 10, 15, 21, 6, 10, 15, 21, 6, 10, 15, 21]

/-- One MD5 compression of a 16-word chunk into the running state. -/
def md5ProcessChunk (chunk : List Nat) (st : Nat × Nat × Nat × Nat) :
    Nat × Nat × Nat × Nat :=
  let step := fun (s : Nat × Nat × Nat × Nat) (i : Nat) =>
    let a := s.1
    let b := s.2.1
    let c := s.2.2.1
    let d := s.2.2.2
    let f :=
      if i < 16 then Nat.lor (Nat.land b c) (Nat.land (not32 b) d)
      else if i < 32 then Nat.lor (Nat.land d b) (Nat.land (not32 d) c)
      else if i < 48 then Nat.xor (Nat.xor b c) d
      else Nat.xor c (Nat.lor b (not32 d))
    let g :=
      if i < 16 then i
      else if i < 32 then (5 * i + 1) % 16
      else if i < 48 then (3 * i + 5) % 16
      else (7 * i) % 16
    let tmp := add32 (add32 (add32 f a) (md5K.getD i 0)) (chunk.getD g 0)
    (d, add32 b (rotl32 tmp (md5S.getD i 0)), b, c)
  let fin := (List.range 64).foldl step st
  (add32 st.1 fin.1, add32 st.2.1 fin.2.1, add32 st.2.2.1 fin.2.2.1,
    add32 st.2.2.2 fin.2.2.2)

/-- Little-endian 32-bit words of a byte list. -/
def toWords : List Nat → List Nat
  | b0 :: b1 :: b2 :: b3 :: rest =>
    (b0 + 256 * b1 + 65536 * b2 + 16777216 * b3) :: toWords rest
  | _ => []

/-- Folds 16-word blocks through the compression function. -/
def md5Blocks : (Nat × Nat × Nat × Nat) → List Nat → Nat × Nat × Nat × Nat
  | st, w0 :: w1 :: w2 :: w3 :: w4 :: w5 :: w6 :: w7 :: w8 :: w9 ::
      w10 :: w11 :: w12 :: w13 :: w14 :: w15 :: rest =>
    md5Blocks (md5ProcessChunk
      [w0, w1, w2, w3, w4, w5, w6, w7, w8, w9, w10, w11, w12, w13, w14, w15]
      st) rest
  | st, _ => st

/-- MD5 padding: the 0x80 byte, zeros to 56 mod 64, then the bit length
as eight little-endian bytes. -/
def md5Pad (msg : List Nat) : List Nat :=
  let len := msg.length
  let bitLen := (8 * len) % 18446744073709551616
  msg ++ 128 :: List.replicate ((119 - len % 64) % 64) 0 ++
    [bitLen % 256, bitLen / 256 % 256, bitLen / 65536 % 256,
      bitLen / 16777216 % 256, bitLen / 4294967296 % 256,
      bitLen / 1099511627776 % 256, bitLen / 281474976710656 % 256,
      bitLen / 72057594037927936 % 256]

/-- Little-endian bytes of a 32-bit word. -/
def wordLEBytes (w : Nat) : List Nat :=
  [w % 256, w / 256 % 256, w / 65536 % 256, w / 16777216 % 256]

/-- The 16 digest bytes of MD5. -/
def md5Bytes (msg : List Nat) : List Nat :=
  let fin := md5Blocks (0x67452301, 0xefcdab89, 0x98badcfe, 0x10325476)
    (toWords (md5Pad msg))
  wordLEBytes fin.1 ++ wordLEBytes fin.2.1 ++ wordLEBytes fin.2.2.1 ++
    wordLEBytes fin.2.2.2

/-- hashlib.md5(...).hexdigest(): lower-case hex of the digest bytes. -/
def md5Hex (msg : List Nat) : String :=
  String.mk ((md5Bytes msg).foldr
    (fun b acc => hexDigit (b / 16) :: hexDigit (b % 16) :: acc) [])

set_option maxRecDepth 100000 in
/-- RFC 1321 test vector: digest of the empty message. -/
lemma md5Hex_empty_vector :
    md5Hex [] = "d41d8cd98f00b204e9800998ecf8427e" := by
  decide

set_option maxRecDepth 100000 in
/-- RFC 1321 test vector: digest of the three bytes of abc. -/
lemma md5Hex_abc_vector :
    md5Hex (utf8Bytes "abc") = "900150983cd24fb0d6963f7d28e17f72" := by
  decide

/-- Sort key of create_schedule_hash (ccmha_change_detector.py:85): the
(date, start_time, type) triple.  Subscripting raises KeyError when one
of the three is absent, which create_schedule_hash below models by
failing; on entries that pass that check the default never fires. -/
def hashKeyTriple (e : ScheduleEntry) : String × String × String :=
  (e.date.getD "", e.start_time.getD "", e.type.getD "")

/-- Python comparison of the (date, start_time, type) sort keys. -/
def hashLe (a b : ScheduleEntry) : Prop :=
  tripleLeB (hashKeyTriple a) (hashKeyTriple b) = true

instance : DecidableRel hashLe := by
  intro a b
  unfold hashLe
  infer_instance

instance : IsTotal ScheduleEntry hashLe :=
  ⟨fun a b => tripleLeB_total (hashKeyTriple a) (hashKeyTriple b)⟩

instance : IsTrans ScheduleEntry hashLe :=
  ⟨fun _ _ _ h1 h2 => tripleLeB_trans h1 h2⟩

/-- Embedding of create_schedule_hash (ccmha_change_detector.py:82-91):
sort by (date, start_time, type) with Python's stable sort (insertion
sort is stable with this non-strict comparison, like Timsort),
serialize with json.dumps(..., sort_keys=True), hash the UTF-8 bytes
with MD5 and return the lower-case hex digest.  The sort-key access
raises KeyError when an entry lacks date, start_time or type, modelled
by none. -/
def create_schedule_hash (items : List ScheduleEntry) : Option String :=
  if items.all (fun e =>
      e.date.isSome && e.start_time.isSome && e.type.isSome) then
    some (md5Hex (utf8Bytes (jsonList (List.insertionSort hashLe items))))
  else none

set_option maxRecDepth 200000 in
/-- Cross-validation of the whole pipeline against CPython: the digest
of the one-game collection computed by json.dumps plus hashlib.md5. -/
lemma create_schedule_hash_sample :
    create_schedule_hash [sampleGame] =
      some "40fb5c438146d37567b39e557a14dd0c" := by
  decide

lemma eq_of_perm_of_sorted_antisymm {α : Type} {r : α → α → Prop} :
    ∀ {l1 l2 : List α}, l1.Perm l2 → l1.Sorted r → l2.Sorted r →
      (∀ a ∈ l1, ∀ b ∈ l1, r a b → r b a → a = b) → l1 = l2
  | [], _, hp, _, _, _ => hp.nil_eq
  | a :: t1, [], hp, _, _, _ => absurd hp.eq_nil (by simp)
  | a :: t1, b :: t2, hp, hs1, hs2, hanti => by
    have hab : a = b := by
      by_cases hne : a = b
      · exact hne
      · have ha2 : a ∈ b :: t2 := hp.mem_iff.mp (List.mem_cons_self a t1)
        have hb1 : b ∈ a :: t1 := hp.mem_iff.mpr (List.mem_cons_self b t2)
        have ha2t : a ∈ t2 := by
          rcases List.mem_cons.mp ha2 with h | h
          · exact absurd h hne
          · exact h
        have hb1t : b ∈ t1 := by
          rcases List.mem_cons.mp hb1 with h | h
          · exact absurd h.symm hne
          · exact h
        have rab : r a b := (List.sorted_cons.mp hs1).1 b hb1t
        have rba : r b a := (List.sorted_cons.mp hs2).1 a ha2t
        exact hanti a (List.mem_cons_self a t1) b
          (List.mem_cons_of_mem a hb1t) rab rba
    subst hab
    have hp2 : t1.Perm t2 := hp.cons_inv
    have hanti2 : ∀ x ∈ t1, ∀ y ∈ t1, r x y → r y x → x = y :=
      fun x hx y hy =>
        hanti x (List.mem_cons_of_mem a hx) y (List.mem_cons_of_mem a hy)
    rw [eq_of_perm_of_sorted_antisymm hp2 (List.sorted_cons.mp hs1).2
      (List.sorted_cons.mp hs2).2 hanti2]

-- ---------------------------------------------------------------------
-- C9: the canonical hash and permutations
-- ---------------------------------------------------------------------

/-- Entry tying with hashTieLeagueB on (date, start_time, type). -/
def hashTieLeagueA : ScheduleEntry :=
  ⟨some "2024-06-01", some "18:00", none, some "Game", some "LeagueA",
    none, none⟩

/-- Entry tying with hashTieLeagueA on (date, start_time, type) but in
another league, hence a different identity and serialization. -/
def hashTieLeagueB : ScheduleEntry :=
  ⟨some "2024-06-01", some "18:00", none, some "Game", some "LeagueB",
    none, none⟩

set_option maxRecDepth 400000 in
/-- Counterexample to claim C9 as stated: the two collections are
permutations of each other, and both entries share the sort key
(date, start_time, type) while differing in league, so the stable sort
preserves each input order and the two serializations, and then the two
digests, differ. -/
theorem c9_counterexample :
    [hashTieLeagueA, hashTieLeagueB].Perm [hashTieLeagueB, hashTieLeagueA] ∧
    create_schedule_hash [hashTieLeagueA, hashTieLeagueB] ≠
      create_schedule_hash [hashTieLeagueB, hashTieLeagueA] := by
  constructor
  · decide
  · decide

/-- Claim C9 (amended): create_schedule_hash is invariant under
permutations of the input collection provided no two distinct entries
share the sort key (date, start_time, type); with a tie on that key the
stable sort preserves the respective input orders and the fingerprint
can differ (see the counterexample). -/
theorem c9_hash_permutation_invariant (l1 l2 : List ScheduleEntry)
    (hperm : l1.Perm l2)
    (hinj : ∀ a ∈ l1, ∀ b ∈ l1, hashKeyTriple a = hashKeyTriple b → a = b) :
    create_schedule_hash l1 = create_schedule_hash l2 := by
  by_cases hall : l1.all (fun e =>
      e.date.isSome && e.start_time.isSome && e.type.isSome) = true
  · have hall2 : l2.all (fun e =>
        e.date.isSome && e.start_time.isSome && e.type.isSome) = true := by
      rw [List.all_eq_true] at hall ⊢
      intro e he
      exact hall e (hperm.mem_iff.mpr he)
    unfold create_schedule_hash
    rw [if_pos hall, if_pos hall2]
    have hsort : List.insertionSort hashLe l1 =
        List.insertionSort hashLe l2 := by
      apply eq_of_perm_of_sorted_antisymm
      · exact (List.perm_insertionSort hashLe l1).trans
          (hperm.trans (List.perm_insertionSort hashLe l2).symm)
      · exact List.sorted_insertionSort hashLe l1
      · exact List.sorted_insertionSort hashLe l2
      · intro a ha b hb r1 r2
        have ha1 : a ∈ l1 := (List.perm_insertionSort hashLe l1).mem_iff.mp ha
        have hb1 : b ∈ l1 := (List.perm_insertionSort hashLe l1).mem_iff.mp hb
        exact hinj a ha1 b hb1 (tripleLeB_antisymm r1 r2)
    rw [hsort]
  · have hall2 : ¬ l2.all (fun e =>
        e.date.isSome && e.start_time.isSome && e.type.isSome) = true := by
      intro hc
      apply hall
      rw [List.all_eq_true] at hc ⊢
      intro e he
      exact hc e (hperm.mem_iff.mp he)
    unfold create_schedule_hash
    rw [if_neg hall, if_neg hall2]

/-- Witness for c9_hash_permutation_invariant: the game and the practice
have distinct sort keys, so swapping them leaves the fingerprint
unchanged. -/
theorem c9_hash_permutation_invariant_witness :
    create_schedule_hash [sampleGame, samplePractice] =
      create_schedule_hash [samplePractice, sampleGame] :=
  c9_hash_permutation_invariant [sampleGame, samplePractice]
    [samplePractice, sampleGame] (by decide) (by decide)
